import Mathlib

/-!
A shallow embedding of the `mdbench` metadata benchmark command
(`cmd/bench_meta.go`) and proofs about its behaviour.

Modelling conventions:
* Go strings are modelled as `List Char`; all strings occurring in the
  benchmark are ASCII, so byte indexing (`strings.IndexByte`) coincides
  with character indexing.
* Go `uint` / `int` are modelled as `Nat` / `Int` with explicit reduction
  modulo `2 ^ 64` at the points where the Go code performs machine
  arithmetic or conversions (the platform word is taken to be 64 bits).
* `float64` throughput arithmetic is modelled exactly over `ℚ`;
  the elapsed wall-clock duration of a step is an oracle parameter.
* Concurrency: the per-thread operation loops of a step are serialised
  in thread order; the claims proved below only concern per-thread
  ordering, event counts and totals, never cross-thread interleaving.
-/

namespace MdBench

/-- Go machine-word modulus (64-bit platform). -/
def wordMod : Nat := 2 ^ 64

/-- `type StepKind uint8`, with the four real kinds
(`stepNum` is only an array-size marker and is not a kind). -/
inductive StepKind where
  | stepCreate
  | stepStat
  | stepOpen
  | stepRemove
deriving DecidableEq, Repr

open StepKind

/-- `var stepNames = []string{stepCreate: "create", stepStat: "stat",
stepOpen: "open", stepRemove: "remove"}`. -/
def stepNames : StepKind → List Char
  | stepCreate => "create".data
  | stepStat => "stat".data
  | stepOpen => "open".data
  | stepRemove => "remove".data

/-- `type Step struct { kind StepKind; repeat uint }`. -/
structure Step where
  kind : StepKind
  rep : Nat
deriving DecidableEq, Repr

/-- `strings.IndexByte(s, c)`: index of the first occurrence of `c`
in `s`, or `-1` when absent (ASCII, so bytes are characters). -/
def goIndexByte (s : List Char) (c : Char) : Int :=
  match s with
  | [] => -1
  | a :: rest =>
      if a = c then 0
      else
        let r := goIndexByte rest c
        if r < 0 then -1 else r + 1

/-- Decimal digit test. -/
def isDigit (c : Char) : Bool := decide ('0' ≤ c ∧ c ≤ '9')

/-- Value of a list of decimal digits (most significant first). -/
def digitsVal (s : List Char) : Nat :=
  s.foldl (fun a c => a * 10 + (c.toNat - '0'.toNat)) 0

/-- `strconv.Atoi(s)`: an optional sign followed by at least one
decimal digit; any other shape is a syntax error, and a value outside
the 64-bit `int` range is a range error (Go returns the error together
with a clamped value, and the caller treats any error as fatal). -/
def goAtoi (s : List Char) : Except Unit Int :=
  let (neg, digits) :=
    match s with
    | '+' :: rest => (false, rest)
    | '-' :: rest => (true, rest)
    | _ => (false, s)
  if digits = [] then .error ()
  else if digits.all isDigit then
    let v : Int := if neg then -(digitsVal digits : Int) else (digitsVal digits : Int)
    if -(2 ^ 63) ≤ v ∧ v ≤ 2 ^ 63 - 1 then .ok v else .error ()
  else .error ()

/-- Go conversion `uint(n)` from `int n`: reduction modulo `2 ^ 64`. -/
def uintOfInt (n : Int) : Nat := (n % (wordMod : Int)).toNat

/-- The `switch step { ... }` of `metadataBench` resolving a step name
(after any `*` suffix has been stripped) to its kind; `none` is the
`default:` branch, a fatal error. -/
def stepKindOfName (s : List Char) : Option StepKind :=
  if s = "create".data ∨ s = "c".data then some stepCreate
  else if s = "stat".data ∨ s = "s".data then some stepStat
  else if s = "open".data ∨ s = "o".data then some stepOpen
  else if s = "remove".data ∨ s = "rm".data ∨ s = "r".data ∨
          s = "delete".data ∨ s = "del".data ∨ s = "d".data then some stepRemove
  else none

/-- Errors with which the parse loop of `metadataBench` calls
`log.Fatal`. -/
inductive ParseErr where
  | atoiErr
  | unknownStep (tok : List Char)
deriving DecidableEq, Repr

/-- One iteration of the step-parsing loop of `metadataBench`:
find `'*'`; when its index is positive, `Atoi` the suffix (fatal on
error), convert through `uint`, and strip the suffix; then resolve the
remaining name (fatal when unknown). -/
def parseStep (tok : List Char) : Except ParseErr Step :=
  let p := goIndexByte tok '*'
  if 0 < p then
    match goAtoi (tok.drop (p.toNat + 1)) with
    | .error _ => .error .atoiErr
    | .ok n =>
        match stepKindOfName (tok.take p.toNat) with
        | some k => .ok ⟨k, uintOfInt n⟩
        | none => .error (.unknownStep (tok.take p.toNat))
  else
    match stepKindOfName tok with
    | some k => .ok ⟨k, 1⟩
    | none => .error (.unknownStep tok)

/-- The whole parse loop: the first fatal token aborts the run. -/
def parseSteps (toks : List (List Char)) : Except ParseErr (List Step) :=
  match toks with
  | [] => .ok []
  | t :: rest =>
      match parseStep t with
      | .error e => .error e
      | .ok s =>
          match parseSteps rest with
          | .error e => .error e
          | .ok ss => .ok (s :: ss)

/-- Structural helper for decimal rendering: the fuel bounds the digit
count, so the definition reduces definitionally on concrete input. -/
def decRepAux (fuel : Nat) (n : Nat) : List Char :=
  match fuel with
  | 0 => []
  | fuel + 1 =>
      if n < 10 then [Char.ofNat (48 + n)]
      else decRepAux fuel (n / 10) ++ [Char.ofNat (48 + n % 10)]

/-- Decimal rendering of a `uint`, as produced by `fmt.Sprintf("%d", n)`. -/
def decRep (n : Nat) : List Char := decRepAux (n + 1) n

/-- `filepath.Join(d, e)` for the argument shapes used by the benchmark:
the appended component `e` never contains a separator or dot segment, so
`Clean` normalisation (which the claims below never depend on) reduces to
plain concatenation with a single separator. -/
def goJoin (d e : List Char) : List Char :=
  if d = [] then e else d ++ '/' :: e

/-- `func (b *MetaBench) routine_dir(i uint) string`. -/
def routine_dir (dir : List Char) (i : Nat) : List Char :=
  goJoin dir ("meta-bench-".data ++ decRep i)

/-- `func (b *MetaBench) filename(d string, i uint) string`. -/
def filename (d : List Char) (i : Nat) : List Char :=
  goJoin d ("file-".data ++ decRep i)

/-- Tags naming the eight concrete operation closures installed by
`prepare` into `b.funcs` (local `os.*` branch / remote `b.jfs.*` branch). -/
inductive OpTag where
  | osCreate
  | osStat
  | osOpen
  | osRemove
  | jfsCreate
  | jfsStat
  | jfsOpen
  | jfsDelete
deriving DecidableEq, Repr

/-- The operation dispatch table `b.funcs` as installed by `prepare`
(lines 123-148 when `b.jfs == nil`, lines 164-189 otherwise); an entry of
`none` would be an array slot `prepare` left unset (a nil function). -/
def prepareFuncs (remote : Bool) (k : StepKind) : Option OpTag :=
  if remote then
    match k with
    | stepCreate => some .jfsCreate
    | stepStat => some .jfsStat
    | stepOpen => some .jfsOpen
    | stepRemove => some .jfsDelete
  else
    match k with
    | stepCreate => some .osCreate
    | stepStat => some .osStat
    | stepOpen => some .osOpen
    | stepRemove => some .osRemove

/-- The directory tree `prepare` acts on, abstracted to the set of
existing directory paths (duplicates never arise: `mkdir` is guarded). -/
structure FS where
  dirs : List (List Char)
deriving DecidableEq, Repr

/-- `os.Stat(p)` / `os.IsNotExist` check collapsed to existence. -/
def FS.hasDir (fs : FS) (p : List Char) : Bool := fs.dirs.contains p

/-- `os.Mkdir` / `os.MkdirAll` on path `p` (parents abstracted away). -/
def FS.mkdir (fs : FS) (p : List Char) : FS := ⟨fs.dirs ++ [p]⟩

/-- Root-directory part of `prepare`: create `b.dir` only when absent;
second component lists the directories created. -/
def prepareRoot (dir : List Char) (fs : FS) : FS × List (List Char) :=
  if fs.hasDir dir then (fs, []) else (fs.mkdir dir, [dir])

/-- Per-thread loop of `prepare`: for each thread index, create the
routine directory only when absent. -/
def prepareLoop (dir : List Char) (is : List Nat) (acc : FS × List (List Char)) :
    FS × List (List Char) :=
  match is with
  | [] => acc
  | i :: rest =>
      prepareLoop dir rest
        (if acc.1.hasDir (routine_dir dir i) then acc
         else (acc.1.mkdir (routine_dir dir i), acc.2 ++ [routine_dir dir i]))

/-- Directory side of `prepare` (identical structure in both backend
branches): root first, then thread directories `0, 1, …, threads-1`. -/
def prepareDirs (dir : List Char) (threads : Nat) (fs : FS) : FS × List (List Char) :=
  prepareLoop dir (List.range threads) (prepareRoot dir fs)

/-- ASCII fragment of `strings.ToUpper` (all step names are ASCII). -/
def goToUpperChar (c : Char) : Char :=
  if 'a' ≤ c ∧ c ≤ 'z' then Char.ofNat (c.toNat - 32) else c

/-- `strings.ToUpper` on an ASCII string. -/
def goToUpper (s : List Char) : List Char := s.map goToUpperChar

/-- `total := b.threads * b.files * repeat` in `uint` arithmetic. -/
def runTotal (threads files rep : Nat) : Nat := threads * files * rep % wordMod

/-- Observable events of a run, in program order (thread loops
serialised in thread order; the claims below never rely on cross-thread
interleaving). -/
inductive Event where
  | purge (args : List (List Char))
  | warnPurgeFailed
  | op (f : Option OpTag) (path : List Char)
  | report (name : List Char) (total : Nat) (ops : ℚ)
  | metricOut (path : List Char) (content : List Char)
deriving DecidableEq, Repr

def isPurgeEv : Event → Bool
  | .purge _ => true
  | _ => false

def isOpEv : Event → Bool
  | .op _ _ => true
  | _ => false

def isReportEv : Event → Bool
  | .report _ _ _ => true
  | _ => false

def isWarnEv : Event → Bool
  | .warnPurgeFailed => true
  | _ => false

/-- Paths touched by one worker goroutine of `run`: `repeat` passes over
file indices `0, …, files-1` of its own routine directory. -/
def workerOps (dir : List Char) (files : Nat) (rep : Nat) (tid : Nat) : List (List Char) :=
  (List.range rep).map (fun _ => (List.range files).map (filename (routine_dir dir tid))) |>.flatten

/-- `func (b *MetaBench) dropCaches()`: run the purge command; on error
only a warning is logged. -/
def dropCachesTrace (purgeArgs : List (List Char)) (purgeOk : Bool) : List Event :=
  Event.purge purgeArgs :: (if purgeOk then [] else [Event.warnPurgeFailed])

/-- `MetaBench` (the `jfs` pointer collapsed to the `remote` flag). -/
structure MetaBench where
  dir : List Char
  threads : Nat
  files : Nat
  funcs : StepKind → Option OpTag
  pid : Nat
  purgeArgs : List (List Char)
  remote : Bool

/-- All operation events of one step execution of `run`. -/
def stepOps (b : MetaBench) (step : StepKind) (rep : Nat) : List Event :=
  (List.range b.threads).map
      (fun tid => (workerOps b.dir b.files rep tid).map (Event.op (b.funcs step)))
    |>.flatten

/-- `func (b *MetaBench) run(step StepKind, repeat uint)`: purge caches
when `purgeArgs` is non-empty, execute the worker loops, then report
`total = threads*files*repeat` (machine arithmetic) and
`OPS = total / elapsedSeconds` under the upper-cased step name.
`elapsed` is the measured wall-clock oracle; `float64` arithmetic is
taken exact over `ℚ`. -/
def runTrace (b : MetaBench) (step : StepKind) (rep : Nat) (purgeOk : Bool)
    (elapsed : ℚ) : List Event :=
  (if 0 < b.purgeArgs.length then dropCachesTrace b.purgeArgs purgeOk else [])
  ++ stepOps b step rep
  ++ [Event.report (goToUpper (stepNames step)) (runTotal b.threads b.files rep)
        ((runTotal b.threads b.files rep : ℚ) / elapsed)]

/-- `strings.HasPrefix`. -/
def hasPfx (p l : List Char) : Bool :=
  match p, l with
  | [], _ => true
  | _ :: _, [] => false
  | a :: ps, b :: ls => a = b && hasPfx ps ls

/-- The line marker `"juicefs_meta_ops"` selecting metadata-operation
counters. -/
def metaOpsMarker : List Char := "juicefs_meta_ops".data

/-- `func (b *MetaBench) outputMetrics(ctx, idx, step)`: when both the
`metrics` endpoint and the `metric-out` path are set, fetch the body
(given here as its list of lines, the way `bufio.Scanner` yields them),
keep the lines carrying the marker prefix, and write them each followed
by a newline to `os.Create(out + filename)` — note the Go code
concatenates `out` and the file name directly, with no path separator.
Result: `some (path, content)` of the written file, `none` when either
setting is absent (nothing fetched or written). -/
def outputMetrics (metricsUrl outDir : List Char) (pid idx : Nat)
    (stepName : List Char) (body : List (List Char)) : Option (List Char × List Char) :=
  if metricsUrl = [] ∨ outDir = [] then none
  else
    let fname := decRep pid ++ '-' :: decRep idx ++ '-' :: stepName
    let path := outDir ++ fname
    let content := ((body.filter (hasPfx metaOpsMarker)).map (fun l => l ++ ['\n'])).flatten
    some (path, content)

/-- `runtime.GOOS` as far as `metadataBench` inspects it. -/
inductive GoOS where
  | linux
  | darwin
  | other
deriving DecidableEq, Repr

/-- Purge-argument construction of `metadataBench` in local-backend mode:
`sudo` prepended for non-root users, then the platform command; `none`
models `logger.Fatal("Currently only support Linux/macOS")`. -/
def benchPurgeArgs (uid : Nat) (goos : GoOS) : Option (List (List Char)) :=
  let base : List (List Char) := if uid ≠ 0 then ["sudo".data] else []
  match goos with
  | .darwin => some (base ++ ["purge".data])
  | .linux => some (base ++ ["/bin/sh".data, "-c".data,
      "echo 3 > /proc/sys/vm/drop_caches".data])
  | .other => none

/-- The inputs `metadataBench` reads from flags and the environment. -/
structure BenchConfig where
  mountPoint : List Char
  threads : Nat
  files : Nat
  stepsArg : List (List Char)
  url : List Char
  uid : Nat
  goos : GoOS
  pid : Nat
  metricsUrl : List Char
  metricOut : List Char

/-- The failure modes of `metadataBench` before any step runs. -/
inductive BenchErr where
  | errInvalid
  | unsupportedOS
  | parseFailure (e : ParseErr)
deriving DecidableEq, Repr

/-- Observable outcome of `metadataBench`: whether `prepare` ran, the
events of the step loop, and the terminating error if any. -/
structure BenchOutcome where
  prepared : Bool
  events : List Event
  err : Option BenchErr
deriving DecidableEq, Repr

/-- One iteration of the step loop of `metadataBench`:
`bench.run(kind, repeat)` followed by
`bench.outputMetrics(ctx, i, stepNames[kind])`, for the step at
position `p.1`. -/
def stepSegment (b : MetaBench) (cfg : BenchConfig) (purgeOk : Nat → Bool)
    (elapsed : Nat → ℚ) (body : Nat → List (List Char)) (p : Nat × Step) :
    List Event :=
  runTrace b p.2.kind p.2.rep (purgeOk p.1) (elapsed p.1)
  ++ match outputMetrics cfg.metricsUrl cfg.metricOut b.pid p.1
        (stepNames p.2.kind) (body p.1) with
     | none => []
     | some pc => [Event.metricOut pc.1 pc.2]

/-- The step loop of `metadataBench`, over the parsed steps in order,
the oracles indexed by step position. -/
def stepsTrace (b : MetaBench) (cfg : BenchConfig) (steps : List Step)
    (purgeOk : Nat → Bool) (elapsed : Nat → ℚ) (body : Nat → List (List Char)) :
    List Event :=
  (steps.enum.map (stepSegment b cfg purgeOk elapsed body)).flatten

/-- `func metadataBench(ctx *cli.Context) error`, after flag decoding:
reject zero thread/file counts with `os.ErrInvalid`; select the backend
(remote when a URL is given — purge arguments left empty — otherwise
build the platform purge command, fatal on unsupported platforms); run
`prepare`; parse the step tokens (fatal on the first bad token); then
execute the steps. -/
def metadataBench (cfg : BenchConfig) (purgeOk : Nat → Bool) (elapsed : Nat → ℚ)
    (body : Nat → List (List Char)) : BenchOutcome :=
  if cfg.files = 0 ∨ cfg.threads = 0 then
    { prepared := false, events := [], err := some .errInvalid }
  else
    let remote : Bool := cfg.url ≠ []
    match (if remote then some [] else benchPurgeArgs cfg.uid cfg.goos : Option _) with
    | none => { prepared := false, events := [], err := some .unsupportedOS }
    | some pargs =>
        let b : MetaBench :=
          { dir := cfg.mountPoint, threads := cfg.threads, files := cfg.files,
            funcs := prepareFuncs remote, pid := cfg.pid,
            purgeArgs := pargs, remote := remote }
        match parseSteps cfg.stepsArg with
        | .error e => { prepared := true, events := [], err := some (.parseFailure e) }
        | .ok steps =>
            { prepared := true,
              events := stepsTrace b cfg steps purgeOk elapsed body,
              err := none }

/-- Recogniser for the parse-loop fatal outcome of `metadataBench`. -/
def isParseFailure : Option BenchErr → Bool
  | some (.parseFailure _) => true
  | _ => false

/-- A small concrete local-backend configuration used to instantiate
theorems on explicit inputs. -/
def localCfg : BenchConfig :=
  { mountPoint := "/jfs".data, threads := 1, files := 2,
    stepsArg := ["create".data], url := [], uid := 0, goos := .linux,
    pid := 7, metricsUrl := [], metricOut := [] }

/-- A small concrete local-backend `MetaBench` value (as built by
`metadataBench` for a root user on Darwin) used to instantiate theorems
on explicit inputs. -/
def localBench : MetaBench :=
  { dir := "/jfs".data, threads := 1, files := 2, funcs := prepareFuncs false,
    pid := 7, purgeArgs := ["purge".data], remote := false }

/-! ### Helper lemmas about decimal rendering -/

theorem decRepAux_congr : ∀ n f1 f2, n < f1 → n < f2 → decRepAux f1 n = decRepAux f2 n := by
  intro n
  induction n using Nat.strong_induction_on with
  | _ n ih =>
      intro f1 f2 h1 h2
      match f1, f2 with
      | g1 + 1, g2 + 1 =>
          show decRepAux (g1 + 1) n = decRepAux (g2 + 1) n
          by_cases h10 : n < 10
          · simp [decRepAux, h10]
          · have hlt : n / 10 < n := Nat.div_lt_self (by omega) (by omega)
            have e := ih (n / 10) hlt g1 g2 (by omega) (by omega)
            simp [decRepAux, h10, e]

theorem decRep_eq (n : Nat) :
    decRep n = if n < 10 then [Char.ofNat (48 + n)]
               else decRep (n / 10) ++ [Char.ofNat (48 + n % 10)] := by
  show decRepAux (n + 1) n = _
  by_cases h10 : n < 10
  · simp [decRepAux, h10]
  · have hlt : n / 10 < n := Nat.div_lt_self (by omega) (by omega)
    have e := decRepAux_congr (n / 10) n (n / 10 + 1) (by omega) (by omega)
    simp [decRepAux, h10]
    rw [e]
    rfl

theorem toNat_ofNat_digit (d : Nat) (hd : d < 10) : (Char.ofNat (48 + d)).toNat = 48 + d := by
  interval_cases d <;> rfl

theorem decRep_digit_bounds (n : Nat) : ∀ c ∈ decRep n, 48 ≤ c.toNat ∧ c.toNat ≤ 57 := by
  induction n using Nat.strong_induction_on with
  | _ n ih =>
      intro c hc
      rw [decRep_eq] at hc
      by_cases h10 : n < 10
      · simp [h10] at hc
        subst hc
        have := toNat_ofNat_digit n h10
        omega
      · simp [h10] at hc
        cases hc with
        | inl h =>
            exact ih (n / 10) (Nat.div_lt_self (by omega) (by omega)) c h
        | inr h =>
            subst h
            have h9 : n % 10 < 10 := Nat.mod_lt _ (by omega)
            have := toNat_ofNat_digit (n % 10) h9
            omega

theorem decRep_no_slash (n : Nat) : ∀ c ∈ decRep n, c ≠ '/' := by
  intro c hc he
  have h := decRep_digit_bounds n c hc
  subst he
  simp at h

theorem digitsVal_append_digit (xs : List Char) (c : Char) :
    digitsVal (xs ++ [c]) = digitsVal xs * 10 + (c.toNat - '0'.toNat) := by
  simp [digitsVal, List.foldl_append]

theorem decRep_val (n : Nat) : digitsVal (decRep n) = n := by
  induction n using Nat.strong_induction_on with
  | _ n ih =>
      rw [decRep_eq]
      by_cases h10 : n < 10
      · simp [h10, digitsVal]
        have := toNat_ofNat_digit n h10
        simp [this]
      · have hlt : n / 10 < n := Nat.div_lt_self (by omega) (by omega)
        have h9 : n % 10 < 10 := Nat.mod_lt _ (by omega)
        simp [h10, digitsVal_append_digit, ih (n / 10) hlt, toNat_ofNat_digit (n % 10) h9]
        omega

theorem decRep_inj {m n : Nat} (h : decRep m = decRep n) : m = n := by
  have hm := decRep_val m
  have hn := decRep_val n
  rw [h] at hm
  omega

/-- Cancellation around a separator character that occurs in neither
left part. -/
theorem append_sep_inj {xs ys r s : List Char}
    (hx : ∀ c ∈ xs, c ≠ '/') (hy : ∀ c ∈ ys, c ≠ '/')
    (h : xs ++ '/' :: r = ys ++ '/' :: s) : xs = ys ∧ r = s := by
  induction xs generalizing ys with
  | nil =>
      cases ys with
      | nil => simpa using h
      | cons b bs =>
          simp at h
          obtain ⟨hb, -⟩ := h
          exact absurd hb.symm (hy b (by simp))
  | cons a as ih =>
      cases ys with
      | nil =>
          simp at h
          obtain ⟨ha, -⟩ := h
          exact absurd ha (hx a (by simp))
      | cons b bs =>
          simp at h
          obtain ⟨hab, htl⟩ := h
          have := ih (fun c hc => hx c (by simp [hc])) (fun c hc => hy c (by simp [hc])) htl
          exact ⟨by simp [hab, this.1], this.2⟩

/-! ### Helper lemmas about generated paths -/

theorem mb_literal_no_slash : ∀ c ∈ "meta-bench-".data, c ≠ '/' := by decide

theorem mb_component_no_slash (i : Nat) :
    ∀ c ∈ "meta-bench-".data ++ decRep i, c ≠ '/' := by
  intro c hc
  rcases List.mem_append.mp hc with h | h
  · exact mb_literal_no_slash c h
  · exact decRep_no_slash i c h

theorem mb_component_ne_nil (i : Nat) : "meta-bench-".data ++ decRep i ≠ [] := by
  intro h
  have : "meta-bench-".data = ([] : List Char) := List.append_eq_nil.mp h |>.1
  revert this
  decide

theorem path_shape (dir : List Char) (i a : Nat) :
    filename (routine_dir dir i) a =
      (if dir = [] then [] else dir ++ ['/'])
        ++ ("meta-bench-".data ++ decRep i) ++ '/' :: ("file-".data ++ decRep a) := by
  by_cases hd : dir = []
  · simp [filename, routine_dir, goJoin, hd, mb_component_ne_nil i]
  · simp [filename, routine_dir, goJoin, hd]

/-! ### Helper lemmas about step operation events -/

theorem stepOps_shape (b : MetaBench) (step : StepKind) (rep : Nat) :
    ∀ ev ∈ stepOps b step rep, ∃ path, ev = Event.op (b.funcs step) path := by
  intro ev hev
  simp only [stepOps, List.mem_flatten, List.mem_map] at hev
  obtain ⟨l, ⟨tid, -, hl⟩, hev⟩ := hev
  subst hl
  obtain ⟨path, -, hev⟩ := List.mem_map.mp hev
  exact ⟨path, hev.symm⟩

theorem stepOps_filter_eq_nil (b : MetaBench) (step : StepKind) (rep : Nat)
    (q : Event → Bool) (hq : ∀ f path, q (Event.op f path) = false) :
    (stepOps b step rep).filter q = [] := by
  rw [List.filter_eq_nil_iff]
  intro ev hev
  obtain ⟨path, rfl⟩ := stepOps_shape b step rep ev hev
  simp [hq]

theorem stepOps_countP_eq_zero (b : MetaBench) (step : StepKind) (rep : Nat)
    (q : Event → Bool) (hq : ∀ f path, q (Event.op f path) = false) :
    (stepOps b step rep).countP q = 0 := by
  rw [List.countP_eq_zero]
  intro ev hev
  obtain ⟨path, rfl⟩ := stepOps_shape b step rep ev hev
  simp [hq]

theorem workerOps_length (dir : List Char) (files rep tid : Nat) :
    (workerOps dir files rep tid).length = rep * files := by
  simp only [workerOps, List.length_flatten, List.map_map]
  induction rep with
  | zero => simp
  | succ n ih =>
      rw [List.range_succ]
      simp only [List.map_append, List.sum_append]
      rw [ih]
      simp [Nat.succ_mul]

theorem stepOps_length (b : MetaBench) (step : StepKind) (rep : Nat) :
    (stepOps b step rep).length = b.threads * (rep * b.files) := by
  simp only [stepOps, List.length_flatten, List.map_map]
  induction b.threads with
  | zero => simp
  | succ n ih =>
      rw [List.range_succ]
      simp only [List.map_append, List.sum_append]
      rw [ih]
      simp [workerOps_length, Nat.succ_mul]

theorem stepOps_countP_op (b : MetaBench) (step : StepKind) (rep : Nat) :
    (stepOps b step rep).countP isOpEv = b.threads * (rep * b.files) := by
  rw [← stepOps_length b step rep]
  rw [List.countP_eq_length]
  intro ev hev
  obtain ⟨path, rfl⟩ := stepOps_shape b step rep ev hev
  rfl

/-! ### Claim theorems -/

/-- C5: for distinct thread indices `i ≠ j` below the thread count and
any file indices `a, b` below the file count, the benchmark path
generated for `(i, a)` differs from the one generated for `(j, b)`:
per-thread namespaces never share a file path. -/
theorem C5_thread_namespaces_disjoint (dir : List Char) (threads files i j a b : Nat)
    (hij : i ≠ j) (hi : i < threads) (hj : j < threads)
    (ha : a < files) (hb : b < files) :
    filename (routine_dir dir i) a ≠ filename (routine_dir dir j) b := by
  intro h
  rw [path_shape, path_shape] at h
  simp only [List.append_assoc] at h
  have h2 := List.append_cancel_left (List.append_cancel_left h)
  obtain ⟨hd, -⟩ := append_sep_inj (decRep_no_slash i) (decRep_no_slash j) h2
  exact hij (decRep_inj hd)

/-- C5 witness: thread 0 and thread 1 of a two-thread, one-file run
under `/jfs` get distinct paths. -/
theorem C5_witness :
    (0 : Nat) ≠ 1 ∧
    filename (routine_dir "/jfs".data 0) 0 ≠ filename (routine_dir "/jfs".data 1) 0 :=
  ⟨by decide,
   C5_thread_namespaces_disjoint "/jfs".data 2 1 0 1 0 0 (by decide) (by decide)
     (by decide) (by decide) (by decide)⟩

/-- C10: after `prepare` (either backend), the dispatch table has a
defined operation function for all four step kinds, so every operation
event of a step run through that table carries a defined function,
never an unset entry. -/
theorem C10_dispatch_table_total (remote : Bool) (k : StepKind) (b : MetaBench)
    (rep : Nat) :
    (prepareFuncs remote k).isSome = true ∧
    (stepOps { b with funcs := prepareFuncs remote } k rep).all
      (fun ev => match ev with
        | .op f _ => f.isSome
        | _ => false) = true := by
  have hk : (prepareFuncs remote k).isSome = true := by
    cases remote <;> cases k <;> rfl
  refine ⟨hk, ?_⟩
  rw [List.all_eq_true]
  intro ev hev
  obtain ⟨path, rfl⟩ := stepOps_shape _ k rep ev hev
  simpa using hk

/-- C9: a zero thread count or zero file count makes `metadataBench`
return `os.ErrInvalid` immediately: `prepare` never runs and no step
event (operation, report, purge or metrics write) is produced. -/
theorem C9_zero_config_rejected (cfg : BenchConfig) (pOk : Nat → Bool)
    (el : Nat → ℚ) (body : Nat → List (List Char))
    (h : cfg.threads = 0 ∨ cfg.files = 0) :
    metadataBench cfg pOk el body =
      { prepared := false, events := [], err := some .errInvalid } := by
  unfold metadataBench
  rcases h with h | h <;> simp [h]

/-- C9 witness: the rejection at the concrete configuration with zero
threads. -/
theorem C9_witness :
    (({ localCfg with threads := 0 } : BenchConfig).threads = 0 ∨
      ({ localCfg with threads := 0 } : BenchConfig).files = 0) ∧
    metadataBench { localCfg with threads := 0 }
        (fun _ => true) (fun _ => 1) (fun _ => []) =
      { prepared := false, events := [], err := some .errInvalid } :=
  ⟨Or.inl rfl,
   C9_zero_config_rejected { localCfg with threads := 0 } _ _ _ (Or.inl rfl)⟩

/-- C3 counterexample: the parser accepts the token `remove*0` and
produces a repeat count of `0`, which is not `≥ 1` (Go's `Atoi` accepts
any integer suffix, not only positive ones). -/
theorem C3_cex_zero_repeat :
    parseStep "remove*0".data = .ok ⟨stepRemove, 0⟩ ∧
    ¬ 1 ≤ (Step.rep ⟨stepRemove, 0⟩) := ⟨rfl, by decide⟩

/-- C3 amended: a token accepted without a `*` suffix yields repeat 1;
an accepted token with a suffix yields the suffix integer reduced to a
machine word, which is `≥ 1` except when that reduction is `0`
(e.g. the suffix `*0`). -/
theorem C3_parser_repeat_amended (tok : List Char) (s : Step)
    (h : parseStep tok = .ok s) :
    (goIndexByte tok '*' ≤ 0 → s.rep = 1) ∧
    (1 ≤ s.rep ∨
      ∃ n, goAtoi (tok.drop ((goIndexByte tok '*').toNat + 1)) = .ok n ∧
        uintOfInt n = 0) := by
  unfold parseStep at h
  by_cases hp : 0 < goIndexByte tok '*'
  · rw [if_pos hp] at h
    cases hA : goAtoi (tok.drop ((goIndexByte tok '*').toNat + 1)) with
    | error e => rw [hA] at h; cases h
    | ok n =>
        rw [hA] at h
        cases hK : stepKindOfName (tok.take (goIndexByte tok '*').toNat) with
        | none => rw [hK] at h; cases h
        | some k =>
            rw [hK] at h
            cases h
            constructor
            · intro hle; omega
            · by_cases hz : uintOfInt n = 0
              · exact Or.inr ⟨n, rfl, hz⟩
              · refine Or.inl ?_
                show 1 ≤ uintOfInt n
                omega
  · rw [if_neg hp] at h
    cases hK : stepKindOfName tok with
    | none => rw [hK] at h; cases h
    | some k =>
        rw [hK] at h
        cases h
        exact ⟨fun _ => rfl, Or.inl (le_refl 1)⟩

/-- C3 witness: the amended property at the accepted token `stat`. -/
theorem C3_witness :
    parseStep "stat".data = .ok ⟨stepStat, 1⟩ ∧
    ((goIndexByte "stat".data '*' ≤ 0 → (Step.rep ⟨stepStat, 1⟩) = 1) ∧
     (1 ≤ (Step.rep ⟨stepStat, 1⟩) ∨
       ∃ n, goAtoi ("stat".data.drop ((goIndexByte "stat".data '*').toNat + 1)) = .ok n ∧
         uintOfInt n = 0)) :=
  ⟨rfl, C3_parser_repeat_amended "stat".data ⟨stepStat, 1⟩ rfl⟩

/-- A fatally-rejected token anywhere in the step list makes the whole
parse loop fail (on it, or on an earlier bad token). -/
theorem parseSteps_error_of_mem {toks : List (List Char)} {tok : List Char}
    {e0 : ParseErr} (hm : tok ∈ toks) (he : parseStep tok = .error e0) :
    ∃ e, parseSteps toks = .error e := by
  induction toks with
  | nil => cases hm
  | cons t rest ih =>
      rcases List.mem_cons.mp hm with rfl | hm'
      · exact ⟨e0, by simp [parseSteps, he]⟩
      · cases hpt : parseStep t with
        | error e => exact ⟨e, by simp [parseSteps, hpt]⟩
        | ok s =>
            obtain ⟨e, hrest⟩ := ih hm'
            exact ⟨e, by simp [parseSteps, hpt, hrest]⟩

/-- C2: `remove*3` parses to kind `remove` with repeat 3; `stat` to
kind `stat` with repeat 1; `rm`, `r`, `delete`, `del`, `d` all parse to
the same kind as `remove`; and any step list containing the
unrecognized token `bogus` makes `metadataBench` fail fatally during
parsing, with no step operation, report, purge or metrics event ever
produced. -/
theorem C2_step_token_parsing :
    parseStep "remove*3".data = .ok ⟨stepRemove, 3⟩ ∧
    parseStep "stat".data = .ok ⟨stepStat, 1⟩ ∧
    parseStep "remove".data = .ok ⟨stepRemove, 1⟩ ∧
    parseStep "rm".data = .ok ⟨stepRemove, 1⟩ ∧
    parseStep "r".data = .ok ⟨stepRemove, 1⟩ ∧
    parseStep "delete".data = .ok ⟨stepRemove, 1⟩ ∧
    parseStep "del".data = .ok ⟨stepRemove, 1⟩ ∧
    parseStep "d".data = .ok ⟨stepRemove, 1⟩ ∧
    ∀ (cfg : BenchConfig) (pOk : Nat → Bool) (el : Nat → ℚ)
      (body : Nat → List (List Char)),
      "bogus".data ∈ cfg.stepsArg →
      cfg.threads ≠ 0 → cfg.files ≠ 0 →
      (cfg.url = [] → cfg.goos ≠ GoOS.other) →
      (metadataBench cfg pOk el body).events = [] ∧
      isParseFailure (metadataBench cfg pOk el body).err = true := by
  refine ⟨rfl, rfl, rfl, rfl, rfl, rfl, rfl, rfl, ?_⟩
  intro cfg pOk el body hb ht hf hos
  obtain ⟨e, hperr⟩ := parseSteps_error_of_mem hb rfl
  by_cases hu : cfg.url = []
  · have hgoos := hos hu
    obtain ⟨pargs, hpargs⟩ : ∃ pargs, benchPurgeArgs cfg.uid cfg.goos = some pargs := by
      cases hg : cfg.goos with
      | other => exact absurd hg hgoos
      | linux => exact ⟨_, rfl⟩
      | darwin => exact ⟨_, rfl⟩
    simp [metadataBench, ht, hf, hu, hpargs, hperr, isParseFailure]
  · simp [metadataBench, ht, hf, hu, hperr, isParseFailure]

/-- C2 witness: the step list `create bogus` is rejected during
parsing on a valid local configuration, with no events produced. -/
theorem C2_witness :
    "bogus".data ∈
      ({ localCfg with stepsArg := ["create".data, "bogus".data] } : BenchConfig).stepsArg ∧
    (metadataBench { localCfg with stepsArg := ["create".data, "bogus".data] }
        (fun _ => true) (fun _ => 1) (fun _ => [])).events = [] ∧
    isParseFailure (metadataBench { localCfg with stepsArg := ["create".data, "bogus".data] }
        (fun _ => true) (fun _ => 1) (fun _ => [])).err = true := by
  refine ⟨by simp, ?_⟩
  exact C2_step_token_parsing.2.2.2.2.2.2.2.2
    { localCfg with stepsArg := ["create".data, "bogus".data] }
    (fun _ => true) (fun _ => 1) (fun _ => [])
    (by simp) (by decide) (by decide) (fun _ => by decide)

/-- C1 counterexample: at the valid configuration
`threads = 2^32, files = 2^32, repeat = 1` the reported total is the
`uint` product `0`, not the mathematical product `2^64`. -/
theorem C1_cex_total_overflow :
    runTotal (2 ^ 32) (2 ^ 32) 1 = 0 ∧
    (2 ^ 32) * (2 ^ 32) * 1 = 2 ^ 64 ∧ (0 : Nat) ≠ 2 ^ 64 := by
  refine ⟨?_, by norm_num, by norm_num⟩
  show 2 ^ 32 * 2 ^ 32 * 1 % wordMod = 0
  norm_num [wordMod]

/-- C1 amended: for a valid configuration
(`threads, files, repeat ≥ 1`) whose product fits the machine word, one
step run reports exactly one report event, carrying the total
`threads × files × repeat`, the throughput `total / elapsedSeconds`,
and the upper-cased step name. -/
theorem C1_run_report_amended (b : MetaBench) (step : StepKind) (rep : Nat)
    (pOk : Bool) (el : ℚ)
    (ht : 1 ≤ b.threads) (hf : 1 ≤ b.files) (hr : 1 ≤ rep)
    (hfit : b.threads * b.files * rep < wordMod) :
    (runTrace b step rep pOk el).filter isReportEv
      = [Event.report (goToUpper (stepNames step)) (b.threads * b.files * rep)
          (((b.threads * b.files * rep : Nat) : ℚ) / el)] ∧
    goToUpper (stepNames step) =
      (match step with
       | stepCreate => "CREATE".data
       | stepStat => "STAT".data
       | stepOpen => "OPEN".data
       | stepRemove => "REMOVE".data) := by
  have htot : runTotal b.threads b.files rep = b.threads * b.files * rep :=
    Nat.mod_eq_of_lt hfit
  constructor
  · unfold runTrace
    rw [List.filter_append, List.filter_append]
    rw [stepOps_filter_eq_nil _ _ _ _ (fun f path => rfl)]
    have hpre : (if 0 < b.purgeArgs.length then dropCachesTrace b.purgeArgs pOk
        else []).filter isReportEv = [] := by
      split
      · unfold dropCachesTrace
        cases pOk <;> rfl
      · rfl
    rw [hpre, htot]
    rfl
  · cases step <;> rfl

/-- C1 witness: the amended report property at one thread, two files,
one repeat, two seconds elapsed. -/
theorem C1_witness :
    1 ≤ localBench.threads ∧ 1 ≤ localBench.files ∧ 1 ≤ 1 ∧
    localBench.threads * localBench.files * 1 < wordMod ∧
    (runTrace localBench stepCreate 1 true 2).filter isReportEv
      = [Event.report (goToUpper (stepNames stepCreate))
          (localBench.threads * localBench.files * 1)
          (((localBench.threads * localBench.files * 1 : Nat) : ℚ) / 2)] ∧
    goToUpper (stepNames stepCreate) = "CREATE".data := by
  have h := C1_run_report_amended localBench stepCreate 1 true 2
    (by decide) (by decide) (by decide) (by norm_num [localBench, wordMod])
  exact ⟨by decide, by decide, by decide, by norm_num [localBench, wordMod], h.1, h.2⟩

/-- C4 (code bug): with endpoint `h` and output directory `outdir`, pid
1, step index 0, step `create`, the metrics file path is the plain
concatenation `outdir1-0-create` — a sibling of the directory the code
just created, not a file inside it — while the content is exactly the
marker-prefixed lines in original order, each terminated by a newline;
and with either setting absent nothing is fetched or written. -/
theorem C4_metric_file_outside_outdir :
    outputMetrics "h".data "outdir".data 1 0 "create".data
        ["juicefs_meta_ops_total 5".data, "other 1".data, "juicefs_meta_ops_x 2".data]
      = some ("outdir1-0-create".data,
          "juicefs_meta_ops_total 5\njuicefs_meta_ops_x 2\n".data) ∧
    hasPfx "outdir/".data "outdir1-0-create".data = false ∧
    outputMetrics [] "outdir".data 1 0 "create".data
        ["juicefs_meta_ops_total 5".data] = none ∧
    outputMetrics "h".data [] 1 0 "create".data
        ["juicefs_meta_ops_total 5".data] = none :=
  ⟨rfl, rfl, rfl, rfl⟩

/-- C6: when the purge command is configured and fails, the step still
executes the same operations and reports the same throughput as when
the purge succeeds; the only difference is a warning event. -/
theorem C6_purge_failure_nonfatal (b : MetaBench) (step : StepKind) (rep : Nat)
    (el : ℚ) (h : b.purgeArgs ≠ []) :
    (runTrace b step rep false el).filter isOpEv
        = (runTrace b step rep true el).filter isOpEv ∧
    (runTrace b step rep false el).filter isReportEv
        = (runTrace b step rep true el).filter isReportEv ∧
    (runTrace b step rep false el).filter isReportEv
        = [Event.report (goToUpper (stepNames step)) (runTotal b.threads b.files rep)
            ((runTotal b.threads b.files rep : ℚ) / el)] ∧
    Event.warnPurgeFailed ∈ runTrace b step rep false el ∧
    Event.warnPurgeFailed ∉ runTrace b step rep true el := by
  have hlen : 0 < b.purgeArgs.length := List.length_pos.mpr h
  have h1 : ∀ p : Bool, (runTrace b step rep p el).filter isOpEv
      = (stepOps b step rep).filter isOpEv := by
    intro p
    unfold runTrace dropCachesTrace
    rw [if_pos hlen]
    cases p <;> simp [isOpEv, List.filter_append]
  have h2 : ∀ p : Bool, (runTrace b step rep p el).filter isReportEv
      = [Event.report (goToUpper (stepNames step)) (runTotal b.threads b.files rep)
          ((runTotal b.threads b.files rep : ℚ) / el)] := by
    intro p
    unfold runTrace dropCachesTrace
    rw [if_pos hlen, List.filter_append, List.filter_append,
      stepOps_filter_eq_nil _ _ _ _ (fun f path => rfl)]
    cases p <;> simp [isReportEv]
  have h4 : Event.warnPurgeFailed ∈ runTrace b step rep false el := by
    unfold runTrace dropCachesTrace
    rw [if_pos hlen]
    simp
  have h5 : Event.warnPurgeFailed ∉ runTrace b step rep true el := by
    unfold runTrace
    rw [if_pos hlen]
    have hd : dropCachesTrace b.purgeArgs true = [Event.purge b.purgeArgs] := rfl
    rw [hd]
    intro hmem
    rcases List.mem_append.mp hmem with hmem1 | hmem1
    · rcases List.mem_append.mp hmem1 with hmem2 | hmem2
      · simp at hmem2
      · obtain ⟨path, hpath⟩ := stepOps_shape b step rep _ hmem2
        cases hpath
    · simp at hmem1
  exact ⟨(h1 false).trans (h1 true).symm, (h2 false).trans (h2 true).symm,
    h2 false, h4, h5⟩

/-- C6 witness: purge failure versus success on the concrete bench. -/
theorem C6_witness :
    localBench.purgeArgs ≠ [] ∧
    (runTrace localBench stepStat 1 false 1).filter isOpEv
        = (runTrace localBench stepStat 1 true 1).filter isOpEv ∧
    (runTrace localBench stepStat 1 false 1).filter isReportEv
        = [Event.report (goToUpper (stepNames stepStat))
            (runTotal localBench.threads localBench.files 1)
            ((runTotal localBench.threads localBench.files 1 : ℚ) / 1)] ∧
    Event.warnPurgeFailed ∈ runTrace localBench stepStat 1 false 1 := by
  have h := C6_purge_failure_nonfatal localBench stepStat 1 1 (by decide)
  exact ⟨by decide, h.1, h.2.2.1, h.2.2.2.1⟩

/-- The purge-event count of one `run`: one purge when `purgeArgs` is
non-empty, none otherwise, independently of the repeat count. -/
theorem runTrace_countP_purge (b : MetaBench) (step : StepKind) (rep : Nat)
    (pOk : Bool) (el : ℚ) :
    (runTrace b step rep pOk el).countP isPurgeEv
      = if b.purgeArgs = [] then 0 else 1 := by
  unfold runTrace
  rw [List.countP_append, List.countP_append,
    stepOps_countP_eq_zero _ _ _ _ (fun f path => rfl)]
  by_cases hp : b.purgeArgs = []
  · rw [if_pos hp]
    have hlen : ¬ 0 < b.purgeArgs.length := by simp [hp]
    rw [if_neg hlen]
    simp [isPurgeEv]
  · rw [if_neg hp]
    have hlen : 0 < b.purgeArgs.length := List.length_pos.mpr hp
    rw [if_pos hlen]
    unfold dropCachesTrace
    cases pOk <;> simp [isPurgeEv]

/-- When the purge command is configured, it is the very first event of
a step run — before the timed operation loop. -/
theorem runTrace_head_purge (b : MetaBench) (step : StepKind) (rep : Nat)
    (pOk : Bool) (el : ℚ) (h : b.purgeArgs ≠ []) :
    (runTrace b step rep pOk el).head? = some (Event.purge b.purgeArgs) := by
  unfold runTrace dropCachesTrace
  rw [if_pos (List.length_pos.mpr h)]
  rfl

theorem stepSegment_countP_purge (b : MetaBench) (cfg : BenchConfig)
    (pOk : Nat → Bool) (el : Nat → ℚ) (body : Nat → List (List Char))
    (p : Nat × Step) :
    (stepSegment b cfg pOk el body p).countP isPurgeEv
      = if b.purgeArgs = [] then 0 else 1 := by
  unfold stepSegment
  rw [List.countP_append, runTrace_countP_purge]
  cases houtput : outputMetrics cfg.metricsUrl cfg.metricOut b.pid p.1
      (stepNames p.2.kind) (body p.1) <;> simp [isPurgeEv]

theorem stepsTrace_countP_purge (b : MetaBench) (cfg : BenchConfig)
    (steps : List Step) (pOk : Nat → Bool) (el : Nat → ℚ)
    (body : Nat → List (List Char)) :
    (stepsTrace b cfg steps pOk el body).countP isPurgeEv
      = (if b.purgeArgs = [] then 0 else 1) * steps.length := by
  unfold stepsTrace
  rw [← List.enum_length (l := steps)]
  generalize steps.enum = l
  induction l with
  | nil => simp
  | cons hd tl ih =>
      simp only [List.map_cons, List.flatten_cons, List.countP_append, ih,
        stepSegment_countP_purge, List.length_cons]
      ring

theorem benchPurgeArgs_ne_nil {uid : Nat} {goos : GoOS} {pargs : List (List Char)}
    (h : benchPurgeArgs uid goos = some pargs) : pargs ≠ [] := by
  unfold benchPurgeArgs at h
  cases goos with
  | other => cases h
  | linux =>
      cases h
      simp
  | darwin =>
      cases h
      simp

/-- C7: with a remote backend the purge-argument list is left empty and
no purge is ever invoked; with a local backend on a supported platform
every executed step produces exactly one purge event, placed before the
step's operation loop and independent of the repeat count. -/
theorem C7_purge_timing (cfg : BenchConfig) (pOk : Nat → Bool) (el : Nat → ℚ)
    (body : Nat → List (List Char)) (steps : List Step)
    (hsteps : parseSteps cfg.stepsArg = .ok steps)
    (ht : cfg.threads ≠ 0) (hf : cfg.files ≠ 0) :
    (cfg.url ≠ [] → (metadataBench cfg pOk el body).events.countP isPurgeEv = 0) ∧
    (cfg.url = [] → cfg.goos ≠ GoOS.other →
      (metadataBench cfg pOk el body).events.countP isPurgeEv = steps.length) ∧
    (∀ (b : MetaBench) (step : StepKind) (rep : Nat) (p1 : Bool) (e1 : ℚ),
      b.purgeArgs ≠ [] →
      (runTrace b step rep p1 e1).countP isPurgeEv = 1 ∧
      (runTrace b step rep p1 e1).head? = some (Event.purge b.purgeArgs)) ∧
    (∀ (b : MetaBench) (step : StepKind) (rep : Nat) (p1 : Bool) (e1 : ℚ),
      b.purgeArgs = [] →
      (runTrace b step rep p1 e1).countP isPurgeEv = 0) := by
  refine ⟨?_, ?_, ?_, ?_⟩
  · intro hu
    simp [metadataBench, ht, hf, hu, hsteps, stepsTrace_countP_purge]
  · intro hu hg
    obtain ⟨pargs, hpargs⟩ : ∃ pargs, benchPurgeArgs cfg.uid cfg.goos = some pargs := by
      cases hgoos : cfg.goos with
      | other => exact absurd hgoos hg
      | linux => exact ⟨_, rfl⟩
      | darwin => exact ⟨_, rfl⟩
    have hne := benchPurgeArgs_ne_nil hpargs
    simp [metadataBench, ht, hf, hu, hpargs, hsteps, stepsTrace_countP_purge, hne]
  · intro b step rep p1 e1 hb
    refine ⟨?_, runTrace_head_purge b step rep p1 e1 hb⟩
    rw [runTrace_countP_purge, if_neg hb]
  · intro b step rep p1 e1 hb
    rw [runTrace_countP_purge, if_pos hb]

/-- C7 witness: a remote configuration produces no purge event, and
the concrete local bench produces exactly one, first, even with three
repeats. -/
theorem C7_witness :
    ({ localCfg with url := "redis://h".data } : BenchConfig).url ≠ [] ∧
    (metadataBench { localCfg with url := "redis://h".data }
        (fun _ => true) (fun _ => 1) (fun _ => [])).events.countP isPurgeEv = 0 ∧
    localBench.purgeArgs ≠ [] ∧
    (runTrace localBench stepCreate 3 true 1).countP isPurgeEv = 1 ∧
    (runTrace localBench stepCreate 3 true 1).head?
      = some (Event.purge localBench.purgeArgs) := by
  have h := C7_purge_timing { localCfg with url := "redis://h".data }
    (fun _ => true) (fun _ => 1) (fun _ => []) [⟨stepCreate, 1⟩] rfl
    (by decide) (by decide)
  have h3 := h.2.2.1 localBench stepCreate 3 true 1 (by decide)
  exact ⟨by decide, h.1 (by decide), by decide, h3.1, h3.2⟩

/-! ### Helper lemmas for `prepare` idempotence -/

theorem hasDir_iff (fs : FS) (p : List Char) : fs.hasDir p = true ↔ p ∈ fs.dirs := by
  simp [FS.hasDir, List.contains, List.elem_iff]

theorem mkdir_hasDir_self (fs : FS) (p : List Char) : (fs.mkdir p).hasDir p = true := by
  rw [hasDir_iff]
  simp [FS.mkdir]

theorem mkdir_hasDir_mono (fs : FS) (p q : List Char) (h : fs.hasDir p = true) :
    (fs.mkdir q).hasDir p = true := by
  rw [hasDir_iff] at h ⊢
  simp [FS.mkdir, h]

theorem prepareLoop_skip (dir : List Char) (is : List Nat) (acc : FS × List (List Char))
    (h : ∀ i ∈ is, acc.1.hasDir (routine_dir dir i) = true) :
    prepareLoop dir is acc = acc := by
  induction is with
  | nil => rfl
  | cons i rest ih =>
      unfold prepareLoop
      rw [if_pos (h i (by simp))]
      exact ih (fun j hj => h j (by simp [hj]))

theorem prepareLoop_mono (dir : List Char) (is : List Nat) (acc : FS × List (List Char))
    (p : List Char) (h : acc.1.hasDir p = true) :
    (prepareLoop dir is acc).1.hasDir p = true := by
  induction is generalizing acc with
  | nil => exact h
  | cons i rest ih =>
      unfold prepareLoop
      by_cases hd : acc.1.hasDir (routine_dir dir i) = true
      · rw [if_pos hd]
        exact ih _ h
      · rw [if_neg hd]
        exact ih _ (mkdir_hasDir_mono _ _ _ h)

theorem prepareLoop_adds (dir : List Char) (is : List Nat) (acc : FS × List (List Char))
    (i : Nat) (hm : i ∈ is) :
    (prepareLoop dir is acc).1.hasDir (routine_dir dir i) = true := by
  induction is generalizing acc with
  | nil => cases hm
  | cons j rest ih =>
      unfold prepareLoop
      rcases List.mem_cons.mp hm with rfl | hm'
      · by_cases hd : acc.1.hasDir (routine_dir dir i) = true
        · rw [if_pos hd]
          exact prepareLoop_mono _ _ _ _ hd
        · rw [if_neg hd]
          exact prepareLoop_mono _ _ _ _ (mkdir_hasDir_self _ _)
      · by_cases hd : acc.1.hasDir (routine_dir dir j) = true
        · rw [if_pos hd]
          exact ih _ hm'
        · rw [if_neg hd]
          exact ih _ hm'

/-- C8: when the root directory and every per-thread directory already
exist, `prepare` creates nothing, changes nothing and raises no error;
in particular running `prepare` twice from any starting tree is the
same as running it once. -/
theorem C8_prepare_idempotent (dir : List Char) (threads : Nat) (fs : FS)
    (hroot : fs.hasDir dir = true)
    (hsub : ∀ i, i < threads → fs.hasDir (routine_dir dir i) = true) :
    prepareDirs dir threads fs = (fs, []) ∧
    ∀ fs0 : FS, prepareDirs dir threads (prepareDirs dir threads fs0).1
        = ((prepareDirs dir threads fs0).1, []) := by
  have part1 : ∀ g : FS, g.hasDir dir = true →
      (∀ i, i < threads → g.hasDir (routine_dir dir i) = true) →
      prepareDirs dir threads g = (g, []) := by
    intro g hg hsubg
    unfold prepareDirs prepareRoot
    rw [if_pos hg]
    exact prepareLoop_skip dir _ (g, []) (fun i hi => hsubg i (List.mem_range.mp hi))
  refine ⟨part1 fs hroot hsub, ?_⟩
  intro fs0
  apply part1
  · unfold prepareDirs
    apply prepareLoop_mono
    unfold prepareRoot
    by_cases h0 : fs0.hasDir dir = true
    · rw [if_pos h0]
      exact h0
    · rw [if_neg h0]
      exact mkdir_hasDir_self _ _
  · intro i hi
    unfold prepareDirs
    exact prepareLoop_adds dir _ _ i (List.mem_range.mpr hi)

/-- C8 witness: a tree already holding `/jfs` and its single thread
directory is left exactly as it is. -/
theorem C8_witness :
    (FS.mk ["/jfs".data, routine_dir "/jfs".data 0]).hasDir "/jfs".data = true ∧
    prepareDirs "/jfs".data 1 (FS.mk ["/jfs".data, routine_dir "/jfs".data 0])
      = (FS.mk ["/jfs".data, routine_dir "/jfs".data 0], []) :=
  ⟨by decide,
   (C8_prepare_idempotent "/jfs".data 1 (FS.mk ["/jfs".data, routine_dir "/jfs".data 0])
     (by decide) (by decide)).1⟩

end MdBench
